import Mathlib

/-!
Shallow embedding of the core of the magento2-mcp-server repository: the
search-criteria query-string builder and the paginated fetch engine
(`fetchAllPages` and the criteria construction in `src/utils` — the file
shipped as `formatters.js` in this snapshot — together with
`buildDateRangeFilter` from the date-utils module and the value-encoding
used by the attribute tools).

The JavaScript is embedded as executable Lean definitions: query strings
are `List Char`, JSON page responses are a small sum type recording exactly
the distinctions the code observes, the HTTP caller is abstracted as a
function from page number to `Except` (it either yields a decoded response
or throws), and the unbounded `do … while (true)` loop is run with explicit
fuel (`none` = fuel exhausted before the loop's own termination test fired).
-/


/-- Value of the `items` field of a decoded JSON page response, with the
distinctions the JavaScript code observes: a genuine array (`Array.isArray`
true); an absent or falsy value (`undefined`, `null`, `false`, `0`, `""` —
all make `!responseData.items` true); or a truthy non-array value, recorded
together with the numeric value of its `.length` property when it has one
(`none` when `.length` is `undefined`, e.g. for a plain object, in which
case the JavaScript comparison `items.length < pageSize` is false). -/
inductive ItemsVal (α : Type) where
  | absent : ItemsVal α
  | arr : List α → ItemsVal α
  | other : Option Nat → ItemsVal α
deriving DecidableEq, Repr

/-- Decoded JSON search result consumed by the engine:
`{ total_count?: number, items?: array }`, both fields optional. -/
structure PageResp (α : Type) where
  total_count : Option Nat
  items : ItemsVal α
deriving DecidableEq, Repr

/-- Internal page-size constant of `fetchAllPages`: `const pageSize = 100`. -/
def pageSize : Nat := 100

/-- JavaScript truthiness test `!responseData.items`: true exactly for the
absent/falsy case. An empty array is truthy in JavaScript, so `arr []`
gives false here. -/
def itemsFalsy {α : Type} : ItemsVal α → Bool
  | .absent => true
  | .arr _ => false
  | .other _ => false

/-- JavaScript comparison `responseData.items.length < ps`: the array
length for arrays, the recorded numeric `.length` for truthy non-arrays
that have one, and false when `.length` is `undefined` (in JavaScript
`undefined < ps` is false). The absent case is never reached in the source
(short-circuit after `!responseData.items`); false is a safe filler. -/
def itemsShort {α : Type} : ItemsVal α → Nat → Bool
  | .arr l, ps => l.length < ps
  | .other (some n), ps => n < ps
  | .other none, _ => false
  | .absent, _ => false

/-- One fuelled run of the `do { … } while (true)` loop of `fetchAllPages`
(formatters.js lines 105-139), starting from a given current page,
accumulator `allItems`, and captured `totalCount`. The `server` argument
abstracts `callMagentoApi` applied to the encoded criteria of each page
number: it returns the decoded response or the thrown error. Each loop
iteration consumes one unit of fuel; `none` means the fuel ran out before
the loop's own termination test fired. On termination the second component
counts the HTTP requests issued. Loop body, in source order: append
`items` to the accumulator only when it is an array; on page 1 capture
`total_count || 0`; break when `totalCount <= allItems.length`, or
`!responseData.items`, or `responseData.items.length < pageSize`; otherwise
increment the page and continue. -/
def fetchLoop {ε α : Type} (server : Nat → Except ε (PageResp α)) :
    Nat → Nat → List α → Nat → Option (Except ε (List α) × Nat)
  | 0, _, _, _ => none
  | fuel + 1, currentPage, allItems, totalCount =>
    match server currentPage with
    | .error e => some (.error e, 1)
    | .ok resp =>
      let newItems : List α :=
        match resp.items with
        | .arr l => allItems ++ l
        | _ => allItems
      let tc : Nat :=
        if currentPage = 1 then resp.total_count.getD 0 else totalCount
      if decide (tc ≤ newItems.length) || itemsFalsy resp.items
          || itemsShort resp.items pageSize then
        some (.ok newItems, 1)
      else
        match fetchLoop server fuel (currentPage + 1) newItems tc with
        | none => none
        | some (r, n) => some (r, n + 1)

/-- Embedding of `fetchAllPages` (formatters.js lines 99-142): run the page
loop from page 1 with an empty accumulator and `totalCount = 0`. -/
def fetchAllPages {ε α : Type} (server : Nat → Except ε (PageResp α))
    (fuel : Nat) : Option (Except ε (List α) × Nat) :=
  fetchLoop server fuel 1 [] 0

/-- Model of a server that serves a fixed filtered collection `data` as
consistent pages of size `m` (the page size fixed by the search criteria the
engine sends, cf. the criteria builder below): page `p` carries the
`p`-th chunk of `m` items and reports the full collection size as
`total_count` on every page. -/
def consistentServer {α : Type} (data : List α) (m : Nat) :
    Nat → Except Unit (PageResp α) :=
  fun p => .ok ⟨some data.length, .arr ((data.drop ((p - 1) * m)).take m)⟩

/-- Server for the C5 abort scenario: page 1 succeeds with a full page of
100 items and `total_count = 250`; every later page throws error `7`. -/
def failingPage2Server : Nat → Except Nat (PageResp Nat) :=
  fun p => if p = 1 then .ok ⟨some 250, .arr (List.range 100)⟩ else .error 7

/-- Replace the reported `total_count` of every page other than page 1 by
an arbitrary alternative `f p`, leaving items and errors untouched. -/
def retotal {ε α : Type} (server : Nat → Except ε (PageResp α))
    (f : Nat → Option Nat) : Nat → Except ε (PageResp α) :=
  fun p => if p = 1 then server p
           else (server p).map fun r => ⟨f p, r.items⟩

/-- Normalize the first page's reported `total_count` to
`some (t.getD 0)`: an absent value becomes an explicit 0. -/
def zeroizeFirstTotal {ε α : Type} (server : Nat → Except ε (PageResp α)) :
    Nat → Except ε (PageResp α) :=
  fun p => if p = 1
           then (server p).map fun r => ⟨some (r.total_count.getD 0), r.items⟩
           else server p

/-- Adversarial server for C8: every page is full (100 items) and page 1
reports a `total_count` exceeding what `n` full pages can accumulate, so
none of the loop's termination tests ever fires within `n` iterations. -/
def adversaryServer (n : Nat) : Nat → Except Unit (PageResp Nat) :=
  fun _ => .ok ⟨some (100 * n + 101), .arr (List.range 100)⟩

/-- C6 counterexample input: page 1 carries `total_count = 2` and a truthy
non-array `items` with no numeric `.length` (a plain object); page 2
carries a genuine two-item array. -/
def nonArrayItemsServer : Nat → Except Unit (PageResp Nat) :=
  fun p => if p = 1 then .ok ⟨some 2, .other none⟩
           else .ok ⟨some 2, .arr [5, 6]⟩

/-- Same server as `nonArrayItemsServer` except page 1's `items` is an
empty array (the "page with zero items" the claim compares against). -/
def emptyItemsServer : Nat → Except Unit (PageResp Nat) :=
  fun p => if p = 1 then .ok ⟨some 2, .arr []⟩
           else .ok ⟨some 2, .arr [5, 6]⟩

/-- Rewrite every absent/falsy `items` field a server ever returns into an
explicit empty array, leaving everything else alone. -/
def deAbsent {ε α : Type} (server : Nat → Except ε (PageResp α)) :
    Nat → Except ε (PageResp α) :=
  fun p => (server p).map fun r =>
    ⟨r.total_count,
     match r.items with
     | .absent => .arr []
     | it => it⟩

/-- Character list of a string literal (query strings are embedded as
`List Char`). -/
def str (s : String) : List Char := s.data

/-- JavaScript `String.prototype.includes`: does `pat` occur as a
contiguous substring of `l`? -/
def containsSub : List Char → List Char → Bool
  | [], pat => pat.isEmpty
  | c :: t, pat => pat.isPrefixOf (c :: t) || containsSub t pat

/-- Key the source tests with
`baseSearchCriteria.includes('searchCriteria[pageSize]')`. -/
def pszKey : List Char := str "searchCriteria[pageSize]"

/-- Key the source tests with
`currentPageSearchCriteria.includes('searchCriteria[currentPage]')`. -/
def cpKey : List Char := str "searchCriteria[currentPage]"

/-- Literal part of the regex `/searchCriteria\[currentPage\]=\d+/`:
the key followed by `=` (the `\d+` digits are matched separately). -/
def cpEq : List Char := cpKey ++ ['=']

/-- Decimal digits of a number as interpolated by a JavaScript template
literal `${n}`. -/
def natChars (n : Nat) : List Char := (Nat.repr n).data

/-- Leftmost-anchored match of `/searchCriteria\[currentPage\]=\d+/` at the
head of `l`: `some k` when the pattern followed by a maximal nonempty digit
run of total length `k` starts here. -/
def matchLen (l : List Char) : Option Nat :=
  if cpEq.isPrefixOf l then
    let ds := (l.drop cpEq.length).takeWhile Char.isDigit
    if ds.isEmpty then none else some (cpEq.length + ds.length)
  else none

/-- JavaScript `String.prototype.replace` with the non-global regex
`/searchCriteria\[currentPage\]=\d+/`: replace the leftmost match (greedy
digits) by `repl`, or return the string unchanged when there is none. -/
def replaceFirstCP (repl : List Char) : List Char → List Char
  | [] => []
  | c :: cs =>
    match matchLen (c :: cs) with
    | some k => repl ++ (c :: cs).drop k
    | none => c :: replaceFirstCP repl cs

/-- Criteria construction of one loop iteration of `fetchAllPages`
(formatters.js lines 106-118): append `&searchCriteria[pageSize]=100`
unless a `searchCriteria[pageSize]` key is already present, then set the
current page — appending `&searchCriteria[currentPage]=<n>` when no
`searchCriteria[currentPage]` key is present, and otherwise substituting
the page number via the regex replacement. -/
def buildPageCriteria (base : List Char) (currentPage : Nat) : List Char :=
  let c1 := if containsSub base pszKey then base
            else base ++ str "&searchCriteria[pageSize]=" ++ natChars pageSize
  if containsSub c1 cpKey then
    replaceFirstCP (cpEq ++ natChars currentPage) c1
  else
    c1 ++ str "&searchCriteria[currentPage]=" ++ natChars currentPage

/-- Unreserved characters of JavaScript `encodeURIComponent`, which are
emitted verbatim: `A-Z a-z 0-9 - _ . ! ~ * ' ( )`. -/
def isUnreservedURI (c : Char) : Bool :=
  let n := c.toNat
  (65 ≤ n && n ≤ 90) || (97 ≤ n && n ≤ 122) || (48 ≤ n && n ≤ 57)
    || n == 45 || n == 95 || n == 46 || n == 33 || n == 126 || n == 42
    || n == 39 || n == 40 || n == 41

/-- UTF-8 byte sequence of one Unicode scalar value. -/
def utf8Encode (c : Char) : List Nat :=
  let n := c.toNat
  if n < 128 then [n]
  else if n < 2048 then [192 + n / 64, 128 + n % 64]
  else if n < 65536 then [224 + n / 4096, 128 + n / 64 % 64, 128 + n % 64]
  else [240 + n / 262144, 128 + n / 4096 % 64, 128 + n / 64 % 64, 128 + n % 64]

/-- Uppercase hexadecimal digit, as emitted by `encodeURIComponent`. -/
def hexDigitChar (n : Nat) : Char :=
  if n < 10 then Char.ofNat (48 + n) else Char.ofNat (55 + n)

/-- Percent-escape of a single byte: `%HH`. -/
def percentByte (b : Nat) : List Char :=
  ['%', hexDigitChar (b / 16), hexDigitChar (b % 16)]

/-- Model of JavaScript `encodeURIComponent` (used on the value side by
`buildDateRangeFilter` and the attribute tools): unreserved characters pass
through; every other character is replaced by the percent-escapes of its
UTF-8 bytes. -/
def encodeURIComponent (s : List Char) : List Char :=
  s.flatMap fun c =>
    if isUnreservedURI c then [c]
    else (utf8Encode c).flatMap percentByte

/-- Value of a hexadecimal digit character, either case. -/
def hexVal (c : Char) : Option Nat :=
  let n := c.toNat
  if 48 ≤ n ∧ n ≤ 57 then some (n - 48)
  else if 65 ≤ n ∧ n ≤ 70 then some (n - 55)
  else if 97 ≤ n ∧ n ≤ 102 then some (n - 87)
  else none

/-- First phase of percent-decoding: turn `%HH` escapes into their bytes
and literal characters into their UTF-8 bytes; `none` on a malformed
escape (where `decodeURIComponent` throws `URIError`). -/
def percentDecodeBytes : List Char → Option (List Nat)
  | [] => some []
  | c :: rest =>
    if c = '%' then
      match rest with
      | h1 :: h2 :: rest2 =>
        match hexVal h1, hexVal h2 with
        | some a, some b =>
          (percentDecodeBytes rest2).map fun bs => (16 * a + b) :: bs
        | _, _ => none
      | _ => none
    else
      (percentDecodeBytes rest).map fun bs => utf8Encode c ++ bs

/-- Continuation-byte value: `some (b - 128)` when `b` is a valid UTF-8
continuation byte `10xxxxxx`, else `none`. -/
def contByte (x : Option Nat) : Option Nat :=
  match x with
  | some b => if 128 ≤ b ∧ b < 192 then some (b - 128) else none
  | none => none

/-- Decode one UTF-8-encoded scalar value from the head of a byte
sequence, returning the character and the remaining bytes; `none` on a
malformed head. -/
def utf8DecodeOne : List Nat → Option (Char × List Nat)
  | [] => none
  | b :: rest =>
    if b < 128 then some (Char.ofNat b, rest)
    else if b < 192 then none
    else if b < 224 then
      match contByte rest.head? with
      | some v1 => some (Char.ofNat ((b - 192) * 64 + v1), rest.tail)
      | none => none
    else if b < 240 then
      match contByte rest.head?, contByte rest.tail.head? with
      | some v1, some v2 =>
        some (Char.ofNat ((b - 224) * 4096 + v1 * 64 + v2), rest.tail.tail)
      | _, _ => none
    else if b < 248 then
      match contByte rest.head?, contByte rest.tail.head?,
          contByte rest.tail.tail.head? with
      | some v1, some v2, some v3 =>
        some (Char.ofNat ((b - 240) * 262144 + v1 * 4096 + v2 * 64 + v3),
          rest.tail.tail.tail)
      | _, _, _ => none
    else none

/-- Second phase of percent-decoding: UTF-8 decode the byte sequence back
to characters, one scalar at a time; `none` on a malformed sequence. -/
def utf8DecodeList : List Nat → Option (List Char)
  | [] => some []
  | b :: rest0 =>
    match h : utf8DecodeOne (b :: rest0) with
    | none => none
    | some (c, rest) => (utf8DecodeList rest).map fun cs => c :: cs
termination_by bs => bs.length
decreasing_by
  simp only [utf8DecodeOne] at h
  repeat' split at h
  all_goals simp_all [List.length_tail]
  all_goals obtain ⟨h1, h2⟩ := h
  all_goals subst h2
  all_goals simp only [List.length_tail]
  all_goals omega

/-- Model of JavaScript `decodeURIComponent`: percent-unescape to bytes,
then UTF-8 decode. -/
def decodeURIComponentModel (s : List Char) : Option (List Char) :=
  (percentDecodeBytes s).bind utf8DecodeList

/-- UTF-8 bytes of a whole string. -/
def utf8Str (s : List Char) : List Nat := s.flatMap utf8Encode

/-- Calendar timestamp, the shape of the `Date` values that the date
parsing utilities hand to `formatDateForMagento` (field-wise; the
formatting consults nothing else). -/
structure JSDate where
  year : Nat
  month : Nat
  day : Nat
  hour : Nat
  minute : Nat
  second : Nat
deriving DecidableEq, Repr

/-- Zero-padded decimal rendering of width `w`, as date-fns `format` pads
the `yyyy`, `MM`, `dd`, `HH`, `mm`, `ss` tokens. -/
def padChars (w n : Nat) : List Char :=
  List.replicate (w - (natChars n).length) '0' ++ natChars n

/-- Embedding of `formatDateForMagento` (date-utils):
`format(date, "yyyy-MM-dd HH:mm:ss")`. -/
def formatDateForMagento (d : JSDate) : List Char :=
  padChars 4 d.year ++ str "-" ++ padChars 2 d.month ++ str "-"
    ++ padChars 2 d.day ++ str " " ++ padChars 2 d.hour ++ str ":"
    ++ padChars 2 d.minute ++ str ":" ++ padChars 2 d.second

/-- Embedding of `buildDateRangeFilter` (date-utils, lines 145-157): two
filter groups, `gteq` on the start date and `lteq` on the end date, values
percent-encoded, joined with `&`. -/
def buildDateRangeFilter (field : List Char) (startDate endDate : JSDate) :
    List Char :=
  List.intercalate (str "&")
    [str "searchCriteria[filter_groups][0][filters][0][field]=" ++ field,
     str "searchCriteria[filter_groups][0][filters][0][value]="
       ++ encodeURIComponent (formatDateForMagento startDate),
     str "searchCriteria[filter_groups][0][filters][0][condition_type]=gteq",
     str "searchCriteria[filter_groups][1][filters][0][field]=" ++ field,
     str "searchCriteria[filter_groups][1][filters][0][value]="
       ++ encodeURIComponent (formatDateForMagento endDate),
     str "searchCriteria[filter_groups][1][filters][0][condition_type]=lteq"]

set_option maxRecDepth 8000 in
/-- C2: with the internal page size of 100 and a server that reports
`total_count = 250` and serves three consistent pages of 100/100/50 items,
`fetchAllPages` issues exactly 3 requests and returns the 250 items
concatenated in server order. -/
theorem fetchAllPages_exact_boundary_250 :
    fetchAllPages (consistentServer (List.range 250) 100) 5
      = some (Except.ok (List.range 250), 3) := by
  rfl

/-- C3: whenever the first page's response carries an items array shorter
than the fixed page size of 100, `fetchAllPages` stops after exactly one
request and returns exactly those items, no matter what `total_count` the
server reports (the short-page rule wins over total-count bookkeeping). -/
theorem fetchAllPages_short_first_page {ε α : Type}
    (server : Nat → Except ε (PageResp α)) (tc : Option Nat) (l : List α)
    (h1 : server 1 = .ok ⟨tc, .arr l⟩) (h2 : l.length < pageSize)
    (fuel : Nat) :
    fetchAllPages server (fuel + 1) = some (.ok l, 1) := by
  unfold fetchAllPages fetchLoop
  rw [h1]
  simp [itemsShort, h2]

/-- Witness for C3 at a concrete server: first page has 3 items and claims
`total_count = 500`; the engine still stops after one request. -/
theorem fetchAllPages_short_first_page_witness :
    fetchAllPages (fun _ => (.ok ⟨some 500, .arr [7, 8, 9]⟩ :
        Except Unit (PageResp Nat))) 4 = some (.ok [7, 8, 9], 1) :=
  fetchAllPages_short_first_page _ (some 500) [7, 8, 9] rfl (by decide) 3

/-- C5: an HTTP failure propagates immediately and the fetch is
all-or-nothing. From any loop state, if the server throws on the requested
page the loop returns exactly that error after the single failing request,
discarding the accumulated items; concretely, a 3-page fetch whose second
page throws yields the error alone after 2 requests — the 100 items of
page 1 are never returned. -/
theorem fetchAllPages_error_propagation :
    (∀ (ε α : Type) (server : Nat → Except ε (PageResp α))
        (fuel currentPage : Nat) (acc : List α) (tc : Nat) (e : ε),
        server currentPage = .error e →
        fetchLoop server (fuel + 1) currentPage acc tc = some (.error e, 1))
    ∧ fetchAllPages failingPage2Server 5 = some (.error 7, 2) := by
  constructor
  · intro ε α server fuel cp acc tc e h
    unfold fetchLoop
    rw [h]
  · rfl

/-- Witness for C5: the first conjunct applied to a server that throws on
every page, from the initial loop state. -/
theorem fetchAllPages_error_propagation_witness :
    fetchLoop (fun _ => (.error 3 : Except Nat (PageResp Nat))) 1 1 [] 0
      = some (.error 3, 1) :=
  fetchAllPages_error_propagation.1 Nat Nat _ 0 1 [] 0 3 rfl

/-- Helper: from page 2 onwards the loop never reads a response's
`total_count`, so two servers that agree on errors and items of every page
from 2 on (totals may differ arbitrarily) drive the loop identically. -/
lemma fetchLoop_items_agree {ε α : Type}
    (s1 s2 : Nat → Except ε (PageResp α))
    (hagree : ∀ p, 2 ≤ p →
      (s1 p).map PageResp.items = (s2 p).map PageResp.items) :
    ∀ fuel cp acc tc, 2 ≤ cp →
      fetchLoop s1 fuel cp acc tc = fetchLoop s2 fuel cp acc tc := by
  intro fuel
  induction fuel with
  | zero => intros; rfl
  | succ n ih =>
    intro cp acc tc hcp
    have h := hagree cp hcp
    have hne : cp ≠ 1 := by omega
    unfold fetchLoop
    cases hs1 : s1 cp with
    | error e =>
      rw [hs1] at h
      cases hs2 : s2 cp with
      | error e2 =>
        rw [hs2] at h
        simp only [Except.map] at h
        cases h
        rfl
      | ok r2 =>
        rw [hs2] at h
        simp only [Except.map] at h
        cases h
    | ok r1 =>
      rw [hs1] at h
      cases hs2 : s2 cp with
      | error e2 =>
        rw [hs2] at h
        simp only [Except.map] at h
        cases h
      | ok r2 =>
        rw [hs2] at h
        simp only [Except.map, Except.ok.injEq] at h
        simp only [h, if_neg hne]
        rw [ih (cp + 1) _ _ (by omega)]

/-- C7: the `total_count` governing loop termination is captured exactly
once, from the first page's response. First conjunct: rewriting the
`total_count` reported by every page other than page 1 to anything at all
never changes the engine's result (later totals are ignored). Second
conjunct: an absent `total_count` on page 1 is exactly equivalent to an
explicit 0 (`totalCount = responseData.total_count || 0`), never an
error. -/
theorem fetchAllPages_total_count_first_page_only :
    (∀ (ε α : Type) (server : Nat → Except ε (PageResp α))
        (f : Nat → Option Nat) (fuel : Nat),
        fetchAllPages (retotal server f) fuel = fetchAllPages server fuel)
    ∧ (∀ (ε α : Type) (server : Nat → Except ε (PageResp α)) (fuel : Nat),
        fetchAllPages (zeroizeFirstTotal server) fuel
          = fetchAllPages server fuel) := by
  constructor
  · intro ε α server f fuel
    cases fuel with
    | zero => rfl
    | succ n =>
      have hrec : ∀ (acc : List α) (tc : Nat),
          fetchLoop (retotal server f) n 2 acc tc
            = fetchLoop server n 2 acc tc := fun acc tc =>
        fetchLoop_items_agree (retotal server f) server
          (fun p hp => by
            simp [retotal, Nat.ne_of_gt (by omega : 1 < p)]
            cases server p <;> simp [Except.map])
          n 2 acc tc (by omega)
      unfold fetchAllPages fetchLoop
      have h1 : retotal server f 1 = server 1 := by simp [retotal]
      rw [h1]
      cases hs : server 1 with
      | error e => rfl
      | ok r => simp only [hrec]
  · intro ε α server fuel
    cases fuel with
    | zero => rfl
    | succ n =>
      have hrec : ∀ (acc : List α) (tc : Nat),
          fetchLoop (zeroizeFirstTotal server) n 2 acc tc
            = fetchLoop server n 2 acc tc := fun acc tc =>
        fetchLoop_items_agree (zeroizeFirstTotal server) server
          (fun p hp => by
            simp [zeroizeFirstTotal, Nat.ne_of_gt (by omega : 1 < p)])
          n 2 acc tc (by omega)
      unfold fetchAllPages fetchLoop
      cases hs : server 1 with
      | error e =>
        have h1 : zeroizeFirstTotal server 1 = .error e := by
          simp [zeroizeFirstTotal, hs, Except.map]
        rw [h1]
      | ok r =>
        have h1 : zeroizeFirstTotal server 1
            = .ok ⟨some (r.total_count.getD 0), r.items⟩ := by
          simp [zeroizeFirstTotal, hs, Except.map]
        rw [h1]
        simp only [Option.getD_some, hrec]

/-- Helper: against `adversaryServer n`, the loop exhausts any fuel budget
of at most `n` iterations without its own termination condition firing. -/
lemma adversaryServer_exhausts_fuel (n : Nat) :
    ∀ fuel cp (acc : List Nat) tc,
      (cp = 1 ∨ tc = 100 * n + 101) →
      acc.length + 100 * fuel ≤ 100 * n + 100 →
      fetchLoop (adversaryServer n) fuel cp acc tc = none := by
  intro fuel
  induction fuel with
  | zero => intros; rfl
  | succ f ih =>
    intro cp acc tc hcap hlen
    have htc : (if cp = 1 then ((some (100 * n + 101) : Option Nat)).getD 0 else tc)
        = 100 * n + 101 := by
      rcases hcap with h | h <;> simp [h]
    simp only [fetchLoop, adversaryServer, htc, itemsFalsy, itemsShort, pageSize,
      List.length_range, List.length_append]
    rw [if_neg (by simp; omega)]
    rw [ih (cp + 1) (acc ++ List.range 100) (100 * n + 101) (Or.inr rfl)
      (by simp [List.length_append]; omega)]

/-- C8: the engine has no page-count upper bound of its own: for every
budget `n` there is a server (each page full, reported `total_count` kept
ahead of the accumulation) against which a run allowed `n` page requests
exhausts all of them without the loop's natural termination condition ever
firing (`none` = fuel ran out, i.e. the source's `do…while(true)` would
keep issuing requests past the `n`-th). -/
theorem fetchAllPages_no_iteration_bound (n : Nat) :
    ∃ server : Nat → Except Unit (PageResp Nat),
      fetchAllPages server n = none :=
  ⟨adversaryServer n,
    adversaryServer_exhausts_fuel n n 1 [] 0 (Or.inl rfl) (by simp)⟩

/-- C1 counterexample input: the collection `[0, 1]` served as consistent
pages of size 1 (as happens when the base criteria pre-specifies
`searchCriteria[pageSize]=1`, which the engine passes through verbatim
while its own `pageSize` constant stays 100): the engine stops after the
first page because 1 item < 100, returning `[0]` — not the concatenation
`[0, 1]` of all items. -/
theorem fetchAllPages_small_pageSize_drops_items :
    fetchAllPages (consistentServer [0, 1] 1) 5 = some (Except.ok [0], 1)
      ∧ (some (Except.ok [0], 1) : Option (Except Unit (List Nat) × Nat))
          ≠ some (Except.ok [0, 1], 2) := by
  constructor
  · rfl
  · simp

/-- Helper invariant for the amended C1: against a consistent server whose
page size `m` is at least the engine's internal 100, the loop starting at
page `p` with the first `p - 1` pages already accumulated finishes with the
whole collection. -/
lemma consistent_fetch {α : Type} (data : List α) (m : Nat) (hm : 100 ≤ m) :
    ∀ fuel p (acc : List α) tc,
      1 ≤ p →
      acc = data.take ((p - 1) * m) →
      (p = 1 ∨ tc = data.length) →
      (p = 1 ∨ (p - 1) * m < data.length) →
      data.length + 1 ≤ (p - 1) * m + fuel →
      ∃ k, fetchLoop (consistentServer data m) fuel p acc tc
        = some (.ok data, k) := by
  intro fuel
  induction fuel with
  | zero =>
    intro p acc tc hp hacc hcap hlt hfuel
    exfalso
    rcases hlt with h | h
    · subst h
      simp at hfuel
    · omega
  | succ f ih =>
    intro p acc tc hp hacc hcap hlt hfuel
    subst hacc
    have hpm : (p - 1) * m + m = p * m := by
      have h1 : p - 1 + 1 = p := by omega
      calc (p - 1) * m + m = (p - 1 + 1) * m := by ring
        _ = p * m := by rw [h1]
    have hpm2 : (p + 1 - 1) * m = p * m := by simp
    have htc : (if p = 1 then ((some data.length : Option Nat)).getD 0 else tc)
        = data.length := by
      rcases hcap with h | h <;> simp [h]
    have htc2 : (if p = 1 then data.length else tc) = data.length := by
      rcases hcap with h | h <;> simp [h]
    simp only [fetchLoop, consistentServer, itemsFalsy, itemsShort, pageSize,
      Option.getD_some, htc, htc2]
    rw [← List.take_add]
    by_cases hend : data.length ≤ (p - 1) * m + m
    · refine ⟨1, ?_⟩
      rw [if_pos (by simp; omega)]
      rw [List.take_of_length_le hend]
    · rw [if_neg (by simp; omega)]
      obtain ⟨k, hk⟩ := ih (p + 1) (data.take ((p + 1 - 1) * m)) data.length
        (by omega) rfl (Or.inr rfl) (Or.inr (by omega)) (by omega)
      rw [hpm2] at hk
      rw [← hpm] at hk
      rw [hk]
      exact ⟨k + 1, rfl⟩

/-- C1 (amended): for every collection and every consistent server whose
page size is at least the engine's internal constant of 100 — in particular
when the base criteria leaves `pageSize` unset, or pre-specifies one of at
least 100 — `fetchAllPages` returns the concatenation of every item across
every page in server order. (With a pre-specified page size below 100 and
more than one page of data, the short-page test fires on the first page
and later items are dropped, as the counterexample shows.) -/
theorem fetchAllPages_returns_all_items {α : Type}
    (data : List α) (m : Nat) (hm : 100 ≤ m) :
    ∃ fuel k, fetchAllPages (consistentServer data m) fuel
      = some (.ok data, k) :=
  ⟨data.length + 1,
    consistent_fetch data m hm (data.length + 1) 1 [] 0 (by omega) (by simp)
      (Or.inl rfl) (Or.inl rfl) (by simp)⟩

set_option maxRecDepth 4000 in
/-- Witness for the amended C1: a 120-item collection served at the
caller-specified page size 120 is returned whole. -/
theorem fetchAllPages_returns_all_items_witness :
    ∃ fuel k, fetchAllPages (consistentServer (List.range 120) 120) fuel
      = some (.ok (List.range 120), k) :=
  fetchAllPages_returns_all_items (List.range 120) 120 (by omega)

/-- C6 counterexample: with a truthy non-array `items` on page 1 the loop
does NOT terminate at that page — `!items` is false and in JavaScript
`undefined < 100` is false — so it proceeds to page 2 and returns its
items after 2 requests; with a zero-item array in the same position it
stops at page 1 with an empty result after 1 request. The two runs differ,
refuting "behaves exactly as a page with zero items". -/
theorem fetchAllPages_nonarray_items_not_like_empty :
    fetchAllPages nonArrayItemsServer 5 = some (.ok [5, 6], 2)
      ∧ fetchAllPages emptyItemsServer 5 = some (.ok [], 1) := by
  constructor
  · rfl
  · rfl

/-- Unfolding equation for one loop iteration with at least one unit of
fuel, stated with the recursive call left folded. -/
lemma fetchLoop_step {ε α : Type} (server : Nat → Except ε (PageResp α))
    (fuel cp : Nat) (acc : List α) (tc : Nat) :
    fetchLoop server (fuel + 1) cp acc tc =
      match server cp with
      | .error e => some (.error e, 1)
      | .ok resp =>
        if decide ((if cp = 1 then resp.total_count.getD 0 else tc) ≤
              (match resp.items with | .arr l => acc ++ l | _ => acc).length)
            || itemsFalsy resp.items || itemsShort resp.items pageSize then
          some (.ok (match resp.items with | .arr l => acc ++ l | _ => acc), 1)
        else
          match fetchLoop server fuel (cp + 1)
              (match resp.items with | .arr l => acc ++ l | _ => acc)
              (if cp = 1 then resp.total_count.getD 0 else tc) with
          | none => none
          | some (r, n) => some (r, n + 1) := rfl

/-- Helper: the loop cannot tell an absent `items` from an empty items
array — both append nothing and both fire the termination test. -/
lemma fetchLoop_deAbsent {ε α : Type} (server : Nat → Except ε (PageResp α)) :
    ∀ fuel cp (acc : List α) tc,
      fetchLoop (deAbsent server) fuel cp acc tc
        = fetchLoop server fuel cp acc tc := by
  intro fuel
  induction fuel with
  | zero => intros; rfl
  | succ n ih =>
    intro cp acc tc
    rw [fetchLoop_step, fetchLoop_step]
    cases hs : server cp with
    | error e =>
      have hd : deAbsent server cp = .error e := by
        simp [deAbsent, hs, Except.map]
      rw [hd]
    | ok r =>
      obtain ⟨t0, it0⟩ := r
      cases it0 with
      | absent =>
        have hd : deAbsent server cp = .ok ⟨t0, .arr []⟩ := by
          simp [deAbsent, hs, Except.map]
        rw [hd]
        have h1 : itemsShort (ItemsVal.arr ([] : List α)) pageSize = true := rfl
        have h2 : itemsFalsy (ItemsVal.absent (α := α)) = true := rfl
        simp only [h1, h2, Bool.or_true, Bool.true_or, if_true, List.append_nil]
      | arr l =>
        have hd : deAbsent server cp = .ok ⟨t0, .arr l⟩ := by
          simp [deAbsent, hs, Except.map]
        rw [hd]
        simp only [ih]
      | other len =>
        have hd : deAbsent server cp = .ok ⟨t0, .other len⟩ := by
          simp [deAbsent, hs, Except.map]
        rw [hd]
        simp only [ih]

/-- C6 (amended): a response with absent (or falsy) `items` behaves exactly
like one with an empty items array — first conjunct: rewriting every absent
`items` into `[]` never changes the engine's result. A response whose
`items` is present but not array-shaped appends nothing and raises no
error, but terminates the fetch at that page only when its `.length` is a
number below the page size or the total-count test already holds; otherwise
the loop continues to the next page with the accumulator unchanged —
second conjunct, three cases on the stop tests. -/
theorem fetchAllPages_malformed_items_behavior :
    (∀ (ε α : Type) (server : Nat → Except ε (PageResp α)) (fuel : Nat),
        fetchAllPages (deAbsent server) fuel = fetchAllPages server fuel)
    ∧ (∀ (ε α : Type) (server : Nat → Except ε (PageResp α))
        (cp : Nat) (acc : List α) (tc : Nat) (t len : Option Nat)
        (fuel : Nat),
        server cp = .ok ⟨t, .other len⟩ →
        (itemsShort (ItemsVal.other (α := α) len) pageSize = true →
          fetchLoop server (fuel + 1) cp acc tc = some (.ok acc, 1))
        ∧ ((if cp = 1 then t.getD 0 else tc) ≤ acc.length →
          fetchLoop server (fuel + 1) cp acc tc = some (.ok acc, 1))
        ∧ (itemsShort (ItemsVal.other (α := α) len) pageSize = false →
          acc.length < (if cp = 1 then t.getD 0 else tc) →
          fetchLoop server (fuel + 1) cp acc tc
            = match fetchLoop server fuel (cp + 1) acc
                (if cp = 1 then t.getD 0 else tc) with
              | none => none
              | some (r, n) => some (r, n + 1))) := by
  constructor
  · intro ε α server fuel
    exact fetchLoop_deAbsent server fuel 1 [] 0
  · intro ε α server cp acc tc t len fuel hs
    refine ⟨?_, ?_, ?_⟩
    · intro hshort
      rw [fetchLoop_step, hs]
      simp [itemsFalsy, hshort]
    · intro hle
      rw [fetchLoop_step, hs]
      simp [itemsFalsy, hle]
    · intro hshort hlt
      rw [fetchLoop_step, hs]
      simp only [itemsFalsy, hshort]
      rw [if_neg (by simp; omega)]

/-- Witness for the amended C6: a truthy non-array `items` whose numeric
`.length` is 3 (e.g. the string "abc") stops the loop at that page with the
accumulator unchanged, by the first case of the second conjunct. -/
theorem fetchAllPages_malformed_items_behavior_witness :
    fetchLoop (fun _ => (.ok ⟨some 50, .other (some 3)⟩ :
        Except Unit (PageResp Nat))) 2 1 [4] 0 = some (.ok [4], 1) :=
  (fetchAllPages_malformed_items_behavior.2 Unit Nat _ 1 [4] 0 (some 50)
    (some 3) 1 rfl).1 (by decide)

/-- Helper: a list that visibly contains `pat` satisfies the `includes`
test. -/
lemma containsSub_of_append (pat pre post : List Char) :
    containsSub (pre ++ pat ++ post) pat = true := by
  induction pre with
  | nil =>
    simp only [List.nil_append]
    have hp : pat.isPrefixOf (pat ++ post) = true := by
      rw [List.isPrefixOf_iff_prefix]
      exact ⟨post, rfl⟩
    cases h : pat ++ post with
    | nil =>
      obtain ⟨h1, h2⟩ := List.append_eq_nil.mp h
      subst h1
      subst h2
      rfl
    | cons c cs =>
      show (pat.isPrefixOf (c :: cs) || containsSub cs pat) = true
      rw [← h, hp]
      simp
  | cons c pre ih =>
    rw [List.cons_append]
    show (pat.isPrefixOf (c :: (pre ++ pat ++ post))
      || containsSub (pre ++ pat ++ post) pat) = true
    rw [List.append_assoc] at ih
    simp [List.append_assoc, ih]

/-- Helper: `takeWhile` of a digit run followed by a non-digit boundary is
exactly the run. -/
lemma takeWhile_digit_run (ds post : List Char)
    (hds : ∀ c ∈ ds, c.isDigit = true)
    (hpost : ∀ c ∈ post.head?, c.isDigit = false) :
    (ds ++ post).takeWhile Char.isDigit = ds := by
  induction ds with
  | nil =>
    cases post with
    | nil => rfl
    | cons c cs =>
      have := hpost c rfl
      simp [List.takeWhile, this]
  | cons c cs ih =>
    simp only [List.cons_append, List.takeWhile_cons, hds c (by simp)]
    simp only [if_true]
    rw [ih (fun x hx => hds x (by simp [hx]))]

/-- Helper: the regex matches at the head of `cpEq ++ ds ++ post` and
consumes exactly the key and the digit run. -/
lemma matchLen_at_run (ds post : List Char) (hne : ds ≠ [])
    (hds : ∀ c ∈ ds, c.isDigit = true)
    (hpost : ∀ c ∈ post.head?, c.isDigit = false) :
    matchLen (cpEq ++ ds ++ post) = some (cpEq.length + ds.length) := by
  unfold matchLen
  have hpre : cpEq.isPrefixOf (cpEq ++ ds ++ post) = true := by
    rw [List.isPrefixOf_iff_prefix]
    exact ⟨ds ++ post, by simp⟩
  rw [hpre]
  simp only [if_true]
  rw [List.append_assoc, List.drop_left]
  rw [takeWhile_digit_run ds post hds hpost]
  simp [List.isEmpty_iff, hne]

/-- Helper: the replacement skips over any region containing no match. -/
lemma replaceFirstCP_skip (repl : List Char) :
    ∀ pre t, (∀ k, k < pre.length → matchLen ((pre ++ t).drop k) = none) →
      replaceFirstCP repl (pre ++ t) = pre ++ replaceFirstCP repl t := by
  intro pre
  induction pre with
  | nil => intros; rfl
  | cons c pre ih =>
    intro t h
    have h0 : matchLen (c :: (pre ++ t)) = none := by
      have := h 0 (by simp)
      simpa using this
    rw [List.cons_append, replaceFirstCP, h0]
    rw [ih t (fun k hk => by
      have := h (k + 1) (by simp; omega)
      simpa using this)]
    rfl

/-- Helper: replacing at the match substitutes the replacement for the key
and its digit run. -/
lemma replaceFirstCP_at_run (repl ds post : List Char) (hne : ds ≠ [])
    (hds : ∀ c ∈ ds, c.isDigit = true)
    (hpost : ∀ c ∈ post.head?, c.isDigit = false) :
    replaceFirstCP repl (cpEq ++ ds ++ post) = repl ++ post := by
  cases h : cpEq ++ ds ++ post with
  | nil =>
    have h1 := List.append_eq_nil.mp h
    have h2 := List.append_eq_nil.mp h1.1
    exact absurd h2.1 (by decide)
  | cons c cs =>
    rw [replaceFirstCP, ← h, matchLen_at_run ds post hne hds hpost]
    show repl ++ (cpEq ++ ds ++ post).drop (cpEq.length + ds.length)
      = repl ++ post
    rw [← List.length_append, List.drop_left]

/-- C4: when the base criteria already contains a `searchCriteria[pageSize]`
key, the engine never appends its internal default
`&searchCriteria[pageSize]=100`; the per-page criteria string is the base
with only the numeric value of `searchCriteria[currentPage]` varying across
iterations — appended after a fixed prefix ending in
`searchCriteria[currentPage]=` when the key is absent (first conjunct), and
substituted in place of the existing digits when a well-formed
`searchCriteria[currentPage]=<digits>` occurrence is present (second
conjunct, for the leftmost such occurrence): in both cases the output is
`p ++ digits(j) ++ s` with `p` and `s` independent of the iteration and
every other byte of the base, its pageSize key included, kept verbatim. -/
theorem buildPageCriteria_respects_caller_pageSize (base : List Char)
    (hps : containsSub base pszKey = true) :
    (containsSub base cpKey = false →
      ∀ j, buildPageCriteria base j
        = (base ++ str "&searchCriteria[currentPage]=") ++ natChars j)
    ∧ (∀ pre ds post, base = pre ++ cpEq ++ ds ++ post →
        ds ≠ [] → (∀ c ∈ ds, c.isDigit = true) →
        (∀ c ∈ post.head?, c.isDigit = false) →
        (∀ k, k < pre.length → matchLen (base.drop k) = none) →
        ∀ j, buildPageCriteria base j
          = (pre ++ cpEq) ++ natChars j ++ post) := by
  constructor
  · intro hcp j
    simp [buildPageCriteria, hps, hcp, List.append_assoc]
  · intro pre ds post hbase hne hds hpost hfirst j
    have hcp : containsSub base cpKey = true := by
      rw [hbase]
      have h2 : pre ++ cpEq ++ ds ++ post
          = pre ++ cpKey ++ (('=' :: ds) ++ post) := by
        simp [cpEq, List.append_assoc]
      rw [h2]
      exact containsSub_of_append cpKey pre (('=' :: ds) ++ post)
    have hbase2 : base = pre ++ (cpEq ++ ds ++ post) := by
      rw [hbase]
      simp [List.append_assoc]
    have hfirst2 : ∀ k, k < pre.length →
        matchLen ((pre ++ (cpEq ++ ds ++ post)).drop k) = none := by
      intro k hk
      rw [← hbase2]
      exact hfirst k hk
    have hsel : buildPageCriteria base j
        = replaceFirstCP (cpEq ++ natChars j) base := by
      simp [buildPageCriteria, hps, hcp]
    rw [hsel, hbase2, replaceFirstCP_skip _ pre _ hfirst2,
      replaceFirstCP_at_run _ ds post hne hds hpost]
    simp [List.append_assoc]

/-- Witness for C4: a base criteria carrying `pageSize=50` and no current
page gets only `&searchCriteria[currentPage]=3` appended — the pageSize is
not overridden with 100. -/
theorem buildPageCriteria_respects_caller_pageSize_witness :
    buildPageCriteria (str "searchCriteria[pageSize]=50") 3
      = str "searchCriteria[pageSize]=50&searchCriteria[currentPage]=3" := by
  have h := (buildPageCriteria_respects_caller_pageSize
    (str "searchCriteria[pageSize]=50") (by decide)).1 (by decide) 3
  rw [h]
  decide

/-- Helper: every Unicode scalar value is below 0x110000. -/
lemma char_toNat_lt (c : Char) : c.toNat < 1114112 := by
  have h := c.valid
  simp [UInt32.isValidChar, Nat.isValidChar] at h
  simp [Char.toNat]
  omega

/-- Helper: both hex digits of a byte decode back to their value. -/
lemma hexVal_hexDigitChar : ∀ m, m < 16 → hexVal (hexDigitChar m) = some m := by
  decide

/-- Helper: every byte emitted by the UTF-8 encoder fits in one octet. -/
lemma utf8Encode_lt (c : Char) : ∀ b ∈ utf8Encode c, b < 256 := by
  have hlt := char_toNat_lt c
  intro b hb
  unfold utf8Encode at hb
  by_cases h1 : c.toNat < 128
  · simp [h1] at hb
    omega
  · by_cases h2 : c.toNat < 2048
    · simp [h1, h2] at hb
      omega
    · by_cases h3 : c.toNat < 65536
      · simp [h1, h2, h3] at hb
        omega
      · simp [h1, h2, h3] at hb
        omega

/-- Helper: decoding consumes one percent-escape as its byte. -/
lemma percentDecodeBytes_escape (b : Nat) (hb : b < 256) (rest : List Char) :
    percentDecodeBytes (percentByte b ++ rest)
      = (percentDecodeBytes rest).map fun bs => b :: bs := by
  have ha := hexVal_hexDigitChar (b / 16) (by omega)
  have hc := hexVal_hexDigitChar (b % 16) (by omega)
  simp only [percentByte, List.cons_append, List.nil_append,
    percentDecodeBytes, if_pos rfl, ha, hc]
  have h16 : 16 * (b / 16) + b % 16 = b := by omega
  rw [h16]
  simp

/-- Helper: decoding keeps a literal non-escape character as its bytes. -/
lemma percentDecodeBytes_lit (c : Char) (hc : c ≠ '%') (rest : List Char) :
    percentDecodeBytes (c :: rest)
      = (percentDecodeBytes rest).map fun bs => utf8Encode c ++ bs := by
  rw [percentDecodeBytes.eq_def]
  simp only [if_neg hc]

/-- Helper: decoding a run of percent-escapes yields exactly those bytes. -/
lemma percentDecodeBytes_escapes (bs : List Nat) (h : ∀ b ∈ bs, b < 256) :
    ∀ rest, percentDecodeBytes (bs.flatMap percentByte ++ rest)
      = (percentDecodeBytes rest).map fun out => bs ++ out := by
  induction bs with
  | nil =>
    intro rest
    cases hr : percentDecodeBytes rest <;> simp [hr]
  | cons b bs ih =>
    intro rest
    rw [List.flatMap_cons, List.append_assoc,
      percentDecodeBytes_escape b (h b (by simp)) _,
      ih (fun x hx => h x (by simp [hx])) rest]
    cases hr : percentDecodeBytes rest <;> simp [hr]

/-- Helper: the unreserved characters do not include the escape mark. -/
lemma isUnreservedURI_ne_percent (c : Char) (h : isUnreservedURI c = true) :
    c ≠ '%' := by
  intro he
  subst he
  revert h
  decide

/-- Helper: percent-decoding the encoder's output, followed by anything,
produces the UTF-8 bytes of the original string. -/
lemma percentDecodeBytes_enc (s : List Char) :
    ∀ rest, percentDecodeBytes (encodeURIComponent s ++ rest)
      = (percentDecodeBytes rest).map fun out => utf8Str s ++ out := by
  induction s with
  | nil =>
    intro rest
    cases hr : percentDecodeBytes rest <;> simp [hr, encodeURIComponent, utf8Str]
  | cons c s ih =>
    intro rest
    rw [show encodeURIComponent (c :: s)
        = (if isUnreservedURI c then [c]
           else (utf8Encode c).flatMap percentByte) ++ encodeURIComponent s
      from rfl]
    by_cases hu : isUnreservedURI c
    · rw [if_pos hu, List.cons_append, List.nil_append, List.cons_append,
        percentDecodeBytes_lit c (isUnreservedURI_ne_percent c hu) _, ih rest]
      cases hr : percentDecodeBytes rest <;>
        simp [hr, utf8Str, List.append_assoc]
    · rw [if_neg hu, List.append_assoc,
        percentDecodeBytes_escapes (utf8Encode c) (utf8Encode_lt c) _, ih rest]
      cases hr : percentDecodeBytes rest <;>
        simp [hr, utf8Str, List.append_assoc]

/-- Helper: one-step unfolding of the list decoder when the head decodes. -/
lemma utf8DecodeList_cons_some (b : Nat) (rest0 : List Nat) (c : Char)
    (rest : List Nat) (h : utf8DecodeOne (b :: rest0) = some (c, rest)) :
    utf8DecodeList (b :: rest0)
      = (utf8DecodeList rest).map fun cs => c :: cs := by
  rw [utf8DecodeList]
  split
  · rename_i heq
    rw [h] at heq
    cases heq
  · rename_i c2 rest2 heq
    rw [h] at heq
    cases heq
    rfl

/-- Helper: a well-formed continuation byte decodes to its payload. -/
lemma contByte_cont (x : Nat) (hx : x < 64) :
    contByte (some (128 + x)) = some x := by
  simp only [contByte]
  rw [if_pos (by omega)]
  simp only [Option.some.injEq]
  omega

/-- Helper: defining equation of the head decoder on a nonempty list. -/
lemma utf8DecodeOne_cons (b : Nat) (rest : List Nat) :
    utf8DecodeOne (b :: rest) =
      if b < 128 then some (Char.ofNat b, rest)
      else if b < 192 then none
      else if b < 224 then
        match contByte rest.head? with
        | some v1 => some (Char.ofNat ((b - 192) * 64 + v1), rest.tail)
        | none => none
      else if b < 240 then
        match contByte rest.head?, contByte rest.tail.head? with
        | some v1, some v2 =>
          some (Char.ofNat ((b - 224) * 4096 + v1 * 64 + v2), rest.tail.tail)
        | _, _ => none
      else if b < 248 then
        match contByte rest.head?, contByte rest.tail.head?,
            contByte rest.tail.tail.head? with
        | some v1, some v2, some v3 =>
          some (Char.ofNat ((b - 240) * 262144 + v1 * 4096 + v2 * 64 + v3),
            rest.tail.tail.tail)
        | _, _, _ => none
      else none := rfl

/-- Helper: the head decoder inverts the encoder on every Unicode scalar
value, leaving the continuation untouched. -/
lemma utf8DecodeOne_encChar (c : Char) (rest : List Nat) :
    utf8DecodeOne (utf8Encode c ++ rest) = some (c, rest) := by
  have hlt := char_toNat_lt c
  by_cases h1 : c.toNat < 128
  · have he : utf8Encode c = [c.toNat] := by simp [utf8Encode, h1]
    rw [he, List.cons_append, List.nil_append, utf8DecodeOne_cons]
    rw [if_pos h1, Char.ofNat_toNat]
  · by_cases h2 : c.toNat < 2048
    · have he : utf8Encode c = [192 + c.toNat / 64, 128 + c.toNat % 64] := by
        simp [utf8Encode, h1, h2]
      rw [he, List.cons_append, List.cons_append, List.nil_append,
        utf8DecodeOne_cons]
      simp only [List.head?_cons, List.tail_cons]
      rw [if_neg (by omega), if_neg (by omega), if_pos (by omega),
        contByte_cont (c.toNat % 64) (by omega)]
      have harith : (192 + c.toNat / 64 - 192) * 64 + c.toNat % 64
          = c.toNat := by omega
      show some (Char.ofNat ((192 + c.toNat / 64 - 192) * 64 + c.toNat % 64),
        rest) = some (c, rest)
      rw [harith, Char.ofNat_toNat]
    · by_cases h3 : c.toNat < 65536
      · have he : utf8Encode c
            = [224 + c.toNat / 4096, 128 + c.toNat / 64 % 64,
               128 + c.toNat % 64] := by
          simp [utf8Encode, h1, h2, h3]
        rw [he, List.cons_append, List.cons_append, List.cons_append,
          List.nil_append, utf8DecodeOne_cons]
        simp only [List.head?_cons, List.tail_cons]
        rw [if_neg (by omega), if_neg (by omega), if_neg (by omega),
          if_pos (by omega), contByte_cont (c.toNat / 64 % 64) (by omega),
          contByte_cont (c.toNat % 64) (by omega)]
        have harith : (224 + c.toNat / 4096 - 224) * 4096
            + c.toNat / 64 % 64 * 64 + c.toNat % 64 = c.toNat := by omega
        show some (Char.ofNat ((224 + c.toNat / 4096 - 224) * 4096
          + c.toNat / 64 % 64 * 64 + c.toNat % 64), rest) = some (c, rest)
        rw [harith, Char.ofNat_toNat]
      · have he : utf8Encode c
            = [240 + c.toNat / 262144, 128 + c.toNat / 4096 % 64,
               128 + c.toNat / 64 % 64, 128 + c.toNat % 64] := by
          simp [utf8Encode, h1, h2, h3]
        rw [he, List.cons_append, List.cons_append, List.cons_append,
          List.cons_append, List.nil_append, utf8DecodeOne_cons]
        simp only [List.head?_cons, List.tail_cons]
        rw [if_neg (by omega), if_neg (by omega), if_neg (by omega),
          if_neg (by omega), if_pos (by omega),
          contByte_cont (c.toNat / 4096 % 64) (by omega),
          contByte_cont (c.toNat / 64 % 64) (by omega),
          contByte_cont (c.toNat % 64) (by omega)]
        have harith : (240 + c.toNat / 262144 - 240) * 262144
            + c.toNat / 4096 % 64 * 4096 + c.toNat / 64 % 64 * 64
            + c.toNat % 64 = c.toNat := by omega
        show some (Char.ofNat ((240 + c.toNat / 262144 - 240) * 262144
          + c.toNat / 4096 % 64 * 4096 + c.toNat / 64 % 64 * 64
          + c.toNat % 64), rest) = some (c, rest)
        rw [harith, Char.ofNat_toNat]

/-- Helper: the encoder never emits an empty byte sequence. -/
lemma utf8Encode_ne_nil (c : Char) : utf8Encode c ≠ [] := by
  simp only [utf8Encode]
  split_ifs <;> simp

/-- Helper: the list decoder peels off exactly the encoding of the leading
character. -/
lemma utf8DecodeList_encChar (c : Char) (rest : List Nat) :
    utf8DecodeList (utf8Encode c ++ rest)
      = (utf8DecodeList rest).map fun cs => c :: cs := by
  have h := utf8DecodeOne_encChar c rest
  cases he : utf8Encode c ++ rest with
  | nil =>
    exact absurd (List.append_eq_nil.mp he).1 (utf8Encode_ne_nil c)
  | cons b rest0 =>
    rw [he] at h
    exact utf8DecodeList_cons_some b rest0 c rest h

/-- Helper: UTF-8 decoding inverts the encoding of a whole string, with an
arbitrary continuation. -/
lemma utf8DecodeList_utf8Str (s : List Char) :
    ∀ rest, utf8DecodeList (utf8Str s ++ rest)
      = (utf8DecodeList rest).map fun cs => s ++ cs := by
  induction s with
  | nil =>
    intro rest
    cases hr : utf8DecodeList rest <;> simp [hr, utf8Str]
  | cons c s ih =>
    intro rest
    rw [show utf8Str (c :: s) = utf8Encode c ++ utf8Str s from rfl,
      List.append_assoc, utf8DecodeList_encChar c _, ih rest]
    cases hr : utf8DecodeList rest <;> simp [hr]

/-- C10: value-side percent-encoding round-trips. First conjunct: for every
filter value string — in particular ones containing `&`, `%`, or space —
percent-decoding the `encodeURIComponent` output (the value component
emitted by `buildDateRangeFilter` and the attribute tools) recovers exactly
the original value. Second conjunct: the `%25…%25` wildcard wrapping used
by the attribute search tool for `like` filters decodes to the literal
`%`-wrapped filter value. -/
theorem encodeURIComponent_roundtrip :
    (∀ v : List Char,
      decodeURIComponentModel (encodeURIComponent v) = some v)
    ∧ (∀ v : List Char,
      decodeURIComponentModel (str "%25" ++ encodeURIComponent v ++ str "%25")
        = some ('%' :: (v ++ ['%']))) := by
  constructor
  · intro v
    have h1 : percentDecodeBytes (encodeURIComponent v)
        = some (utf8Str v) := by
      have h := percentDecodeBytes_enc v []
      rw [List.append_nil] at h
      rw [h]
      simp [percentDecodeBytes]
    have h2 : utf8DecodeList (utf8Str v) = some v := by
      have h := utf8DecodeList_utf8Str v []
      rw [List.append_nil] at h
      rw [h]
      simp [utf8DecodeList]
    simp only [decodeURIComponentModel, h1, Option.some_bind, h2]
  · intro v
    have hpd : percentDecodeBytes
        (str "%25" ++ encodeURIComponent v ++ str "%25")
        = some (37 :: (utf8Str v ++ [37])) := by
      rw [show str "%25" ++ encodeURIComponent v ++ str "%25"
          = percentByte 37 ++ (encodeURIComponent v ++ str "%25") from rfl]
      rw [percentDecodeBytes_escape 37 (by omega),
        percentDecodeBytes_enc v (str "%25")]
      have hx : percentDecodeBytes (str "%25") = some [37] := by
        simp [str, percentDecodeBytes, hexVal]
      rw [hx]
      rfl
    have hone : utf8DecodeOne (37 :: (utf8Str v ++ [37]))
        = some ('%', utf8Str v ++ [37]) := by
      rw [utf8DecodeOne_cons, if_pos (by omega)]
    have hd : utf8DecodeList (37 :: (utf8Str v ++ [37]))
        = (utf8DecodeList (utf8Str v ++ [37])).map fun cs => '%' :: cs :=
      utf8DecodeList_cons_some _ _ _ _ hone
    have h37 : utf8DecodeList [37] = some ['%'] := by
      rw [utf8DecodeList_cons_some 37 [] '%' [] (by
        rw [utf8DecodeOne_cons, if_pos (by omega)])]
      simp [utf8DecodeList]
    simp only [decodeURIComponentModel, hpd, Option.some_bind, hd,
      utf8DecodeList_utf8Str v [37], h37]
    rfl

/-- C9: the criteria encoding is deterministic and idempotent — the embedded
`buildDateRangeFilter` consults nothing but its arguments (no ambient
state in the source: date-fns `format` and `encodeURIComponent` are pure),
so two calls on equal field and date arguments produce byte-identical
query strings. -/
theorem buildDateRangeFilter_deterministic (f1 f2 : List Char)
    (s1 s2 e1 e2 : JSDate) (hf : f1 = f2) (hs : s1 = s2) (he : e1 = e2) :
    buildDateRangeFilter f1 s1 e1 = buildDateRangeFilter f2 s2 e2 := by
  subst hf
  subst hs
  subst he
  rfl

/-- Witness for C9: two calls on the same concrete field and date range
give the same query string. -/
theorem buildDateRangeFilter_deterministic_witness :
    buildDateRangeFilter (str "created_at") ⟨2024, 5, 1, 0, 0, 0⟩
        ⟨2024, 5, 31, 23, 59, 59⟩
      = buildDateRangeFilter (str "created_at") ⟨2024, 5, 1, 0, 0, 0⟩
        ⟨2024, 5, 31, 23, 59, 59⟩ :=
  buildDateRangeFilter_deterministic _ _ _ _ _ _ rfl rfl rfl
